import Mathlib

/- Verification of the openkongqi records store (records/base.py and
records/sqlalch.py) against its specification.

Timestamps.  An aware Python datetime denotes an instant; instants are
modelled as natural numbers counting microseconds since an epoch.  All real
timezone offsets are a whole number of seconds, so on an aware datetime
`replace(microsecond=0)` subtracts `t % 1000000` from the denoted instant,
and `astimezone(pytz.utc)` preserves the instant.  The canonical string
produced by `_ts_to_string` for a whole-second UTC instant is in bijection
with its whole-second count, so a stored latest-cache entry is represented
by that count (field `tsSec`); `_string_to_ts` then yields the instant
`tsSec * 1000000`.  The calendar-level string codec itself is embedded
separately below (`ts_to_string` / `string_to_ts`) for the round-trip claim. -/

def Micros : ℕ := 1000000

/-- A field value: a nullable float column / numeric reading value. -/
abbrev Value := Option ℚ

/-- One row of the `records` table (sqlalch.py, class `Record`): primary key
`(ts, uuid, key)`, nullable `value`.  The `uuid` column is NOT NULL, but the
Python side can pass `None` for it (when `_apply_key_ctx` falls through),
hence `Option String`. -/
structure Row where
  ts : ℕ
  uuid : Option String
  key : String
  value : Value
deriving DecidableEq

/-- The identity triple of a row. -/
def Row.ident (r : Row) : ℕ × Option String × String := (r.ts, r.uuid, r.key)

/-- One incoming reading: a dict with a `ts` datetime and a `fields` mapping
of field name to value.  The mapping is a Python dict, iterated in insertion
order, so it is embedded as an association list. -/
structure Reading where
  ts : ℕ
  fields : List (String × Value)
deriving DecidableEq

/-- A latest-cache entry as stored by `set_latest`: the JSON of
`{'ts': _ts_to_string(record['ts']), 'fields': record['fields']}`.
The serialized ts string of a whole-second UTC instant is represented by its
whole-second count `tsSec`. -/
structure LatestEntry where
  tsSec : ℕ
  fields : List (String × Value)
deriving DecidableEq

/-- The `key_ctx` dict set when a source is initialized; only its
`'modname'` entry is ever read, so only that entry is embedded. -/
structure KeyCtx where
  modname : Option String
deriving DecidableEq

/-- The program state the store mutates: the durable `records` table and the
latest cache.  The cache is an association list, newest entry first: a cache
`set` prepends and a cache `get` takes the first match, which models
overwrite semantics of a key-value cache. -/
structure St where
  store : List Row
  cache : List (String × LatestEntry)
deriving DecidableEq

/-- Modelled from the spec: `utils.get_uuid` (imported by records/base.py but
not under src/) derives a namespaced identifier from a source-name prefix and
a raw key; the spec describes it as a deterministic, collision-resistant
namespacing derivation.  It is modelled as the prefixed string. -/
def get_uuid (mp key : String) : String := mp ++ (":") ++ key

/-- records/base.py `_apply_key_ctx`: with no `key_ctx`, return the key
unchanged; with a `key_ctx` whose `'modname'` entry is present and truthy
(non-empty), return `get_uuid(modname, key)`; otherwise the function falls
through every branch and Python returns `None`. -/
def apply_key_ctx (ctx : Option KeyCtx) (key : String) : Option String :=
  match ctx with
  | none => some key
  | some c =>
    match c.modname with
    | some mp => if mp ≠ ("") then some (get_uuid mp key) else none
    | none => none

/-- Python `str.format` of an optional identifier: `None` formats as the
text `"None"`. -/
def optStr : Option String → String
  | none => ("None")
  | some s => s

/-- The default cache key template (okq:…:latest) applied to an id. -/
def cache_key_fmt (u : String) : String := ("okq:") ++ u ++ (":latest")

/-- records/base.py `get_cache_key`: format the template with either the
contextualized or the raw uuid. -/
def get_cache_key (ctx : Option KeyCtx) (uuid : String) (contextualized : Bool) : String :=
  if contextualized then cache_key_fmt (optStr (apply_key_ctx ctx uuid))
  else cache_key_fmt uuid

/-- First-match lookup in the cache association list (the cache `get`). -/
def lookupFirst (c : List (String × LatestEntry)) (k : String) : Option LatestEntry :=
  match c with
  | [] => none
  | (k2, e) :: rest => if k2 = k then some e else lookupFirst rest k

/-- records/base.py `set_latest`: serialize
`{'ts': _ts_to_string(record['ts']), 'fields': record['fields']}` and store
it under the contextualized cache key.  `_ts_to_string` truncates the instant
to whole seconds, so the stored `tsSec` is `record.ts / Micros`. -/
def set_latest (ctx : Option KeyCtx) (cache : List (String × LatestEntry)) (uuid : String) (record : Reading) : List (String × LatestEntry) :=
  (get_cache_key ctx uuid true, ⟨record.ts / Micros, record.fields⟩) :: cache

/-- records/base.py `get_latest`: look up under the non-contextualized key;
`None` on a miss, otherwise the deserialized entry. -/
def get_latest (ctx : Option KeyCtx) (cache : List (String × LatestEntry)) (uuid : String) : Option LatestEntry :=
  lookupFirst cache (get_cache_key ctx uuid false)

/-- Two rows agree on the primary-key triple `(ts, uuid, key)`. -/
def rowConflict (a b : Row) : Bool :=
  a.ts == b.ts && a.uuid == b.uuid && a.key == b.key

/-- records/sqlalch.py `is_duplicate`: the count of stored rows with the same
`(ts, uuid, key)` is non-zero. -/
def is_duplicate (store : List Row) (record : Row) : Bool :=
  (store.filter (fun s => rowConflict s record)).length != 0

/-- One step of the `last_record` tracking of the write_records loop: take
the current record when nothing is tracked yet or when its ts is strictly
greater than the tracked one. -/
def lrStep (acc : Option Reading) (r : Reading) : Option Reading :=
  match acc with
  | none => some r
  | some lr => if lr.ts < r.ts then some r else some lr

/-- The `last_record` tracking of the write_records loop: start at `None`,
replace whenever the current record's ts is strictly greater. -/
def lastRecord (recs : List Reading) : Option Reading :=
  recs.foldl lrStep none

def concatMapRows (f : Reading → List Row) : List Reading → List Row
  | [] => []
  | r :: rs => f r ++ concatMapRows f rs

/-- The row-queueing of the write_records loop: for each remaining reading
and each `(fieldname, value)` item of its fields dict, build the row (with
the ts normalized to UTC, i.e. the same instant, and the contextualized
uuid) and queue it unless `is_duplicate`.  Nothing is added to the session
before `add_all`, so `is_duplicate` runs against the store as it was when
the entity's processing began. -/
def rowsOf (store : List Row) (cuuid : Option String) (recs : List Reading) : List Row :=
  concatMapRows (fun r => r.fields.filterMap (fun kv =>
    let row : Row := ⟨r.ts, cuuid, kv.1, kv.2⟩
    if is_duplicate store row then none else some row)) recs

/-- The latest-cache filter at the head of the write_records loop body:
`records = filter(lambda r: r['ts'] > latest_ts, records)`, applied only
when `get_latest` returned an entry; `latest_ts = _string_to_ts(latest['ts'])`
is the whole-second instant `tsSec * Micros`. -/
def filterByLatest (latestSec : Option ℕ) (recs : List Reading) : List Reading :=
  match latestSec with
  | none => recs
  | some sec => recs.filter (fun r => sec * Micros < r.ts)

/-- Whether some two queued rows collide on the primary-key triple. -/
def conflictsWithin : List Row → Bool
  | [] => false
  | r :: rs => rs.any (rowConflict r) || conflictsWithin rs

/-- The database commit of the queued rows (`add_all` + `commit`): the
`records` table has primary key `(ts, uuid, key)` and a NOT NULL `uuid`
column, so the transaction raises (and nothing is persisted) iff some queued
row has a NULL uuid, or collides with a stored row, or collides with another
queued row; otherwise every queued row is appended. -/
def commitRows (store rows : List Row) : Except Unit (List Row) :=
  if rows.any (fun r => r.uuid == none) then Except.error ()
  else if rows.any (fun r => is_duplicate store r) then Except.error ()
  else if conflictsWithin rows then Except.error ()
  else Except.ok (store ++ rows)

/-- The whole-second count of the latest-cache entry an entity's raw-key
lookup currently sees (the `latest_ts` the write path would filter with). -/
def latestOf (ctx : Option KeyCtx) (st : St) (uuid : String) : Option ℕ :=
  (get_latest ctx st.cache uuid).map LatestEntry.tsSec

/-- Order on optional cached timestamps: absent is below everything; present
values compare on the whole-second count. -/
def latLe : Option ℕ → Option ℕ → Bool
  | none, _ => true
  | some _, none => false
  | some a, some b => a ≤ b

/-- One iteration of the write_records outer loop, for a single
`(uuid, records)` item of the batch dict: latest-cache filter, `last_record`
tracking, per-field dedup and queueing, `add_all` + `commit`, then
`set_latest` when the commit succeeded and a last record exists. -/
def writeEntity (ctx : Option KeyCtx) (st : St) (uuid : String) (records : List Reading) : Except Unit St :=
  let latestSec := latestOf ctx st uuid
  let recs := filterByLatest latestSec records
  let last := lastRecord recs
  let cuuid := apply_key_ctx ctx uuid
  let rows := rowsOf st.store cuuid recs
  match commitRows st.store rows with
  | Except.error e => Except.error e
  | Except.ok store2 =>
    Except.ok ⟨store2,
      match last with
      | some lr => set_latest ctx st.cache uuid lr
      | none => st.cache⟩

/-- records/sqlalch.py `write_records`: process the batch items in dict
order; an exception aborts the call, leaving the earlier items committed.
Returns the final state together with the surfaced error, if any. -/
def writeRecordsAux (ctx : Option KeyCtx) : St → List (String × List Reading) → St × Option Unit
  | st, [] => (st, none)
  | st, (uuid, records) :: rest =>
    match writeEntity ctx st uuid records with
    | Except.ok st2 => writeRecordsAux ctx st2 rest
    | Except.error _ => (st, some ())

def write_records (ctx : Option KeyCtx) (st : St) (data : List (String × List Reading)) : St × Option Unit :=
  writeRecordsAux ctx st data

/-- A Python datetime argument to `get_records`: either naive (no tzinfo;
reading its civil fields as UTC yields the instant `civil`) or aware
(denoting the instant `instant`). -/
inductive PyDT where
  | naive (civil : ℕ)
  | aware (instant : ℕ)

/-- records/sqlalch.py `to_utc`: a naive datetime gets `tzinfo=utc` (same
civil fields, hence the denoted instant is the civil reading), an aware one
is converted with `astimezone`, which preserves the denoted instant. -/
def to_utc : PyDT → ℕ
  | PyDT.naive c => c
  | PyDT.aware i => i

/-- One yielded entry of `get_records`: a distinct timestamp and the grouped
fields dict built from every matching row at that timestamp. -/
structure GroupEntry where
  ts : ℕ
  fields : List (String × Value)
deriving DecidableEq

/-- The optional `fields` filter of `get_records` (`Record.key.in_(fields)`). -/
def fieldFilterOk (fields : Option (List String)) (k : String) : Bool :=
  match fields with
  | none => true
  | some fs => fs.contains k

/-- The WHERE clause of the `get_records` query. -/
def rowMatch (uuid : String) (s e : ℕ) (fields : Option (List String)) (r : Row) : Bool :=
  r.uuid == some uuid && decide (s ≤ r.ts) && decide (r.ts ≤ e) && fieldFilterOk fields r.key

/-- The distinct ts values of the matching rows (`GROUP BY ts`); the order
in which the backend returns the groups is unspecified. -/
def distinctTs : List ℕ → List ℕ
  | [] => []
  | t :: ts => if t ∈ ts then distinctTs ts else t :: distinctTs ts

/-- Lookup into a fields dict built by a Python dict comprehension: a later
item overwrites an earlier one with the same key, so the last match wins. -/
def dictGet (l : List (String × Value)) (k : String) : Option Value :=
  match l with
  | [] => none
  | (k2, v) :: rest =>
    match dictGet rest k with
    | some v2 => some v2
    | none => if k2 = k then some v else none

/-- records/sqlalch.py `get_records`: sanitize both bounds with `to_utc`,
filter on uuid and the inclusive ts range (plus the optional fields filter),
then yield one entry per distinct ts whose fields dict collects
`rec.key: rec.value` over every matching row at that ts. -/
def get_records (store : List Row) (uuid : String) (start stop : PyDT) (fields : Option (List String)) : List GroupEntry :=
  let s := to_utc start
  let e := to_utc stop
  let ms := store.filter (rowMatch uuid s e fields)
  (distinctTs (ms.map Row.ts)).map (fun t =>
    ⟨t, (ms.filter (fun r => r.ts == t)).map (fun r => (r.key, r.value))⟩)

/-- The store invariant: no two rows share the identity triple. -/
def identNodup : List Row → Bool
  | [] => true
  | r :: rs => !rs.any (rowConflict r) && identNodup rs


/- The timestamp codec of records/base.py (`_ts_to_string` / `_string_to_ts`),
embedded at the calendar level: a Python datetime as its civil fields plus an
optional UTC-offset (in seconds; `None` for a naive datetime).  The format is
the class attribute ts_fmt, rendering year-month-dayThour:minute:secondZ. -/

structure PyDateTime where
  year : ℕ
  month : ℕ
  day : ℕ
  hour : ℕ
  minute : ℕ
  second : ℕ
  micro : ℕ
  tzOffset : Option ℤ
deriving DecidableEq

def isLeap (y : ℕ) : Bool := y % 4 == 0 && (y % 100 != 0 || y % 400 == 0)

def daysInMonth (y m : ℕ) : ℕ :=
  match m with
  | 2 => if isLeap y then 29 else 28
  | 4 => 30
  | 6 => 30
  | 9 => 30
  | 11 => 30
  | _ => 31

/-- The constraints the Python datetime constructor enforces on its fields. -/
def validDT (d : PyDateTime) : Bool :=
  1 ≤ d.year && d.year ≤ 9999 && 1 ≤ d.month && d.month ≤ 12 &&
  1 ≤ d.day && d.day ≤ daysInMonth d.year d.month &&
  d.hour ≤ 23 && d.minute ≤ 59 && d.second ≤ 59 && d.micro ≤ 999999

def nextDay (d : PyDateTime) : PyDateTime :=
  if d.day < daysInMonth d.year d.month then {d with day := d.day + 1}
  else if d.month < 12 then {d with month := d.month + 1, day := 1}
  else {d with year := d.year + 1, month := 1, day := 1}

def prevDay (d : PyDateTime) : PyDateTime :=
  if 1 < d.day then {d with day := d.day - 1}
  else if 1 < d.month then {d with month := d.month - 1, day := daysInMonth d.year (d.month - 1)}
  else {d with year := d.year - 1, month := 12, day := 31}

/-- Model of `aware.astimezone(pytz.utc)` (a library call): keep the denoted
instant and re-express the civil fields at offset zero, i.e. subtract the
offset from the time of day and carry whole days into the date. -/
def astimezoneUTC (d : PyDateTime) : PyDateTime :=
  match d.tzOffset with
  | none => d
  | some off =>
    let t : ℤ := ((d.hour * 3600 + d.minute * 60 + d.second : ℕ) : ℤ) - off
    let q : ℤ := t / 86400
    let r : ℕ := (t % 86400).toNat
    let base : PyDateTime := {d with hour := r / 3600, minute := r / 60 % 60,
                                     second := r % 60, tzOffset := some 0}
    if 0 ≤ q then nextDay^[q.toNat] base else prevDay^[(-q).toNat] base

def digitChar (n : ℕ) : Char :=
  match n % 10 with
  | 0 => ('0')
  | 1 => ('1')
  | 2 => ('2')
  | 3 => ('3')
  | 4 => ('4')
  | 5 => ('5')
  | 6 => ('6')
  | 7 => ('7')
  | 8 => ('8')
  | _ => ('9')

def pad4 (n : ℕ) : List Char :=
  [digitChar (n / 1000), digitChar (n / 100 % 10), digitChar (n / 10 % 10), digitChar (n % 10)]

def pad2 (n : ℕ) : List Char := [digitChar (n / 10), digitChar (n % 10)]

/-- `datetime.strftime` with the fixed format ts_fmt. -/
def formatDT (d : PyDateTime) : String :=
  ⟨pad4 d.year ++ ('-') :: pad2 d.month ++ ('-') :: pad2 d.day ++
   ('T') :: pad2 d.hour ++ (':') :: pad2 d.minute ++ (':') :: pad2 d.second ++ [('Z')]⟩

/-- records/base.py `_ts_to_string`: drop the microseconds, convert an aware
datetime to UTC (a naive one is left as is), and format with ts_fmt. -/
def ts_to_string (d : PyDateTime) : String :=
  let d0 := {d with micro := 0}
  let d1 := match d0.tzOffset with
    | none => d0
    | some _ => astimezoneUTC d0
  formatDT d1

def digitVal : Char → Option ℕ
  | ('0') => some 0
  | ('1') => some 1
  | ('2') => some 2
  | ('3') => some 3
  | ('4') => some 4
  | ('5') => some 5
  | ('6') => some 6
  | ('7') => some 7
  | ('8') => some 8
  | ('9') => some 9
  | _ => none

def parse2 (a b : Char) : Option ℕ :=
  match digitVal a, digitVal b with
  | some x, some y => some (10 * x + y)
  | _, _ => none

def parse4 (a b c d : Char) : Option ℕ :=
  match digitVal a, digitVal b, digitVal c, digitVal d with
  | some x, some y, some z, some w => some (1000 * x + 100 * y + 10 * z + w)
  | _, _, _, _ => none

/-- records/base.py `_string_to_ts`: `datetime.strptime` with ts_fmt
(which demands exactly this shape, each numeric group within the ranges the
datetime constructor accepts) followed by `replace(tzinfo=pytz.utc)`.
A parse failure raises in Python, hence the `Option`. -/
def string_to_ts (str : String) : Option PyDateTime :=
  match str.data with
  | y1 :: y2 :: y3 :: y4 :: c1 :: m1 :: m2 :: c2 :: d1 :: d2 :: c3 ::
    h1 :: h2 :: c4 :: n1 :: n2 :: c5 :: s1 :: s2 :: c6 :: rest =>
    if c1 = ('-') ∧ c2 = ('-') ∧ c3 = ('T') ∧ c4 = (':') ∧ c5 = (':') ∧
       c6 = ('Z') ∧ rest = [] then
      match parse4 y1 y2 y3 y4, parse2 m1 m2, parse2 d1 d2,
            parse2 h1 h2, parse2 n1 n2, parse2 s1 s2 with
      | some y, some mo, some dd, some h, some mi, some ss =>
        if 1 ≤ y ∧ 1 ≤ mo ∧ mo ≤ 12 ∧ 1 ≤ dd ∧ dd ≤ daysInMonth y mo ∧
           h ≤ 23 ∧ mi ≤ 59 ∧ ss ≤ 59 then
          some ⟨y, mo, dd, h, mi, ss, 0, some 0⟩
        else none
      | _, _, _, _, _, _ => none
    else none
  | _ => none

/- ------------------------------------------------------------------ -/
/- Basic lemmas about the write path.                                  -/
/- ------------------------------------------------------------------ -/

theorem rowConflict_iff {a b : Row} :
    rowConflict a b = true ↔ a.ts = b.ts ∧ a.uuid = b.uuid ∧ a.key = b.key := by
  simp [rowConflict, Bool.and_eq_true, and_assoc]

theorem is_duplicate_eq_false_iff {s : List Row} {r : Row} :
    is_duplicate s r = false ↔ ∀ x ∈ s, rowConflict x r = false := by
  simp [is_duplicate, List.filter_eq_nil_iff, List.length_eq_zero]

theorem is_duplicate_eq_true_iff {s : List Row} {r : Row} :
    is_duplicate s r = true ↔ ∃ x ∈ s, rowConflict x r = true := by
  simp [is_duplicate, List.length_eq_zero, List.filter_eq_nil_iff]

theorem commitRows_ok {s rows s2 : List Row} (h : commitRows s rows = Except.ok s2) :
    s2 = s ++ rows ∧ rows.any (fun r => r.uuid == none) = false ∧
    rows.any (fun r => is_duplicate s r) = false ∧ conflictsWithin rows = false := by
  unfold commitRows at h
  split_ifs at h with h1 h2 h3
  exact ⟨(Except.ok.injEq _ _).mp h |>.symm, by simpa using h1, by simpa using h2, by simpa using h3⟩

theorem identNodup_eq_not_conflictsWithin (l : List Row) :
    identNodup l = !conflictsWithin l := by
  induction l with
  | nil => rfl
  | cons r rs ih => simp [identNodup, conflictsWithin, ih, Bool.not_or]

theorem identNodup_append {s rows : List Row}
    (hs : identNodup s = true)
    (hcross : ∀ r ∈ rows, ∀ x ∈ s, rowConflict x r = false)
    (hin : conflictsWithin rows = false) :
    identNodup (s ++ rows) = true := by
  induction s with
  | nil =>
    simpa [identNodup_eq_not_conflictsWithin] using hin
  | cons x s' ih =>
    rw [List.cons_append]
    have hx : s'.any (rowConflict x) = false ∧ identNodup s' = true := by
      have := hs
      simp only [identNodup, Bool.and_eq_true, Bool.not_eq_true'] at this
      exact this
    have hrows : rows.any (rowConflict x) = false := by
      rw [List.any_eq_false]
      intro r hr
      simp [hcross r hr x (by simp)]
    have hrest : identNodup (s' ++ rows) = true :=
      ih hx.2 (fun r hr y hy => hcross r hr y (by simp [hy]))
    simp only [identNodup, Bool.and_eq_true, Bool.not_eq_true', List.any_append, Bool.or_eq_false_iff]
    exact ⟨⟨hx.1, hrows⟩, hrest⟩

theorem writeEntity_ok_iff {ctx : Option KeyCtx} {st : St} {u : String}
    {recs : List Reading} {st2 : St} :
    writeEntity ctx st u recs = Except.ok st2 ↔
    ∃ store2,
      commitRows st.store (rowsOf st.store (apply_key_ctx ctx u)
        (filterByLatest (latestOf ctx st u) recs)) = Except.ok store2 ∧
      st2 = ⟨store2,
        match lastRecord (filterByLatest (latestOf ctx st u) recs) with
        | some lr => set_latest ctx st.cache u lr
        | none => st.cache⟩ := by
  simp only [writeEntity]
  cases hc : commitRows st.store (rowsOf st.store (apply_key_ctx ctx u)
      (filterByLatest (latestOf ctx st u) recs)) with
  | error e => simp
  | ok store2 =>
    constructor
    · intro h
      exact ⟨store2, rfl, ((Except.ok.injEq _ _).mp h).symm⟩
    · rintro ⟨store3, hc2, rfl⟩
      cases hc2
      rfl

theorem writeRecordsAux_identNodup (ctx : Option KeyCtx) (data : List (String × List Reading)) :
    ∀ st : St, identNodup st.store = true → (writeRecordsAux ctx st data).2 = none →
    identNodup (writeRecordsAux ctx st data).1.store = true := by
  induction data with
  | nil => intro st h0 _; simpa [writeRecordsAux] using h0
  | cons p rest ih =>
    obtain ⟨u, recs⟩ := p
    intro st h0 hok
    rw [writeRecordsAux] at hok ⊢
    cases he : writeEntity ctx st u recs with
    | error e =>
      rw [he] at hok
      have h2 : (some () : Option Unit) = none := hok
      exact absurd h2 (by simp)
    | ok st2 =>
      rw [he] at hok
      have hok2 : (writeRecordsAux ctx st2 rest).2 = none := hok
      show identNodup (writeRecordsAux ctx st2 rest).1.store = true
      refine ih st2 ?_ hok2
      obtain ⟨store2, hc, hst2⟩ := writeEntity_ok_iff.mp he
      obtain ⟨rfl, _, hdup, hwithin⟩ := commitRows_ok hc
      have hstore : st2.store = st.store ++ rowsOf st.store (apply_key_ctx ctx u)
          (filterByLatest (latestOf ctx st u) recs) := by rw [hst2]
      rw [hstore]
      refine identNodup_append h0 ?_ hwithin
      intro r hr x hx
      have hd : is_duplicate st.store r = false := by
        rw [List.any_eq_false] at hdup
        simpa using hdup r hr
      exact is_duplicate_eq_false_iff.mp hd x hx

/-- C1: write_records preserves the store invariant that no two stored rows
share the same (ts, entity_id, field_name) identity triple: for every input
batch (including batches in which one entity's readings contain two readings
with the same timestamp and a common field name — such a batch cannot commit
successfully, the backend constraint rejects it) and every initial state
whose store satisfies the invariant, the state after a write_records call
that succeeds still satisfies it. -/
theorem claim_C1 (ctx : Option KeyCtx) (st : St) (data : List (String × List Reading))
    (h0 : identNodup st.store = true) (hok : (write_records ctx st data).2 = none) :
    identNodup (write_records ctx st data).1.store = true :=
  writeRecordsAux_identNodup ctx data st h0 hok

theorem claim_C1_witness :
    identNodup (write_records none ⟨[], []⟩
      [(("e1"), [⟨0, [(("a"), some 1)]⟩, ⟨100000000, [(("a"), some 2)]⟩])]).1.store = true :=
  claim_C1 none ⟨[], []⟩ _ rfl rfl

/- ------------------------------------------------------------------ -/
/- String/cache-key helper lemmas.                                     -/
/- ------------------------------------------------------------------ -/

theorem string_append_data (a b : String) : (a ++ b).data = a.data ++ b.data := by
  cases a; cases b; rfl

theorem cache_key_fmt_inj {u v : String} (h : cache_key_fmt u = cache_key_fmt v) : u = v := by
  unfold cache_key_fmt at h
  have hd := congrArg String.data h
  rw [string_append_data, string_append_data, string_append_data, string_append_data] at hd
  rw [List.append_assoc, List.append_assoc] at hd
  have h2 := List.append_cancel_left hd
  have h3 := List.append_cancel_right h2
  cases u; cases v
  exact congrArg String.mk (by simpa using h3)

/-- C10: _apply_key_ctx returns the raw key unchanged only when key_ctx is
None; when key_ctx is a mapping whose modname entry is missing or empty, the
function falls through without returning and yields None, and get_cache_key
then formats a cache key containing the text None instead of any entity
identifier, for every uuid. -/
theorem claim_C10 (k : String) (m : KeyCtx) :
    (∀ ctx : Option KeyCtx, apply_key_ctx ctx k = some k ↔ ctx = none) ∧
    ((m.modname = none ∨ m.modname = some ("")) →
      apply_key_ctx (some m) k = none ∧
      get_cache_key (some m) k true = ("okq:None:latest")) := by
  constructor
  · intro ctx
    constructor
    · intro h
      cases ctx with
      | none => rfl
      | some c =>
        exfalso
        cases hm : c.modname with
        | none => simp [apply_key_ctx, hm] at h
        | some mp =>
          by_cases hmp : mp = ("")
          · simp [apply_key_ctx, hm, hmp] at h
          · simp [apply_key_ctx, hm, hmp] at h
            have hlen := congrArg String.length h
            simp [get_uuid, String.length_append] at hlen
            exact absurd hlen.2 (by decide)
    · rintro rfl
      rfl
  · intro hm
    rcases hm with hm | hm
    · exact ⟨by simp [apply_key_ctx, hm], by simp [get_cache_key, apply_key_ctx, hm, optStr]; decide⟩
    · exact ⟨by simp [apply_key_ctx, hm], by simp [get_cache_key, apply_key_ctx, hm, optStr]; decide⟩

theorem claim_C10_witness :
    apply_key_ctx (some ⟨none⟩) ("station-1") = none ∧
    get_cache_key (some ⟨none⟩) ("station-1") true = ("okq:None:latest") :=
  (claim_C10 ("station-1") ⟨none⟩).2 (Or.inl rfl)

/-- C4: set_latest stores the serialized entry under the cache key built from
the contextualized entity id, while get_latest looks up under the key built
from the raw id and returns None on a miss; whenever contextualization
changes the id, a get_latest immediately following a set_latest for the same
uuid does not observe the stored entry (the lookup result is exactly what it
was before the set). -/
theorem claim_C4 (ctx : Option KeyCtx) (cache : List (String × LatestEntry))
    (u : String) (rec : Reading) :
    (lookupFirst (set_latest ctx cache u rec) (get_cache_key ctx u true) =
      some ⟨rec.ts / Micros, rec.fields⟩) ∧
    (get_latest ctx cache u = lookupFirst cache (cache_key_fmt u)) ∧
    (lookupFirst cache (cache_key_fmt u) = none → get_latest ctx cache u = none) ∧
    (optStr (apply_key_ctx ctx u) ≠ u →
      get_latest ctx (set_latest ctx cache u rec) u = get_latest ctx cache u) := by
  refine ⟨by simp [set_latest, lookupFirst], rfl, fun h => h, fun h => ?_⟩
  have hne : get_cache_key ctx u true ≠ cache_key_fmt u := by
    intro hh
    exact h (cache_key_fmt_inj hh)
  simp only [get_latest, set_latest, lookupFirst, get_cache_key, if_true]
  rw [if_neg]
  intro hh
  exact hne (by simpa [get_cache_key] using hh)

theorem claim_C4_witness :
    get_latest (some ⟨some ("src")⟩)
      (set_latest (some ⟨some ("src")⟩) [] ("st-1") ⟨5000000, [(("pm25"), some 7)]⟩)
      ("st-1") =
    get_latest (some ⟨some ("src")⟩) [] ("st-1") :=
  (claim_C4 (some ⟨some ("src")⟩) [] ("st-1") ⟨5000000, [(("pm25"), some 7)]⟩).2.2.2 (by decide)

/-- C5 (amended): a uniqueness violation raised by the backend while
inserting the queued rows is NOT caught inside write_records: the call
surfaces the error to the caller (write_records has no try/except), and the
failing entity's rows and latest-cache update are not applied. -/
theorem claim_C5 (ctx : Option KeyCtx) (st : St) (u : String) (recs : List Reading)
    (rest : List (String × List Reading))
    (herr : writeEntity ctx st u recs = Except.error ()) :
    (write_records ctx st ((u, recs) :: rest)).2 = some () ∧
    (write_records ctx st ((u, recs) :: rest)).1 = st := by
  unfold write_records
  rw [writeRecordsAux, herr]
  exact ⟨rfl, rfl⟩

/-- C5 counterexample: a batch whose single entity carries two readings with
the same timestamp and the same field name queues two rows with one identity
triple; the insert raises a uniqueness violation and write_records surfaces
it to the caller instead of treating it as already stored. -/
theorem claim_C5_counterexample :
    (write_records none ⟨[], []⟩
      [(("e"), [⟨100000000, [(("a"), some 1)]⟩, ⟨100000000, [(("a"), some 2)]⟩])]).2 = some () ∧
    (write_records none ⟨[], []⟩
      [(("e"), [⟨100000000, [(("a"), some 1)]⟩, ⟨100000000, [(("a"), some 2)]⟩])]).1.store = [] :=
  ⟨rfl, rfl⟩

theorem claim_C5_witness :
    (write_records none ⟨[], []⟩
      [(("w"), [⟨0, [(("f"), some 1)]⟩, ⟨0, [(("f"), some 2)]⟩])]).2 = some () :=
  (claim_C5 none ⟨[], []⟩ ("w") [⟨0, [(("f"), some 1)]⟩, ⟨0, [(("f"), some 2)]⟩] [] rfl).1

/- ------------------------------------------------------------------ -/
/- last_record lemmas.                                                 -/
/- ------------------------------------------------------------------ -/

theorem lrStep_spec (acc : Option Reading) (a : Reading) :
    ∃ y, lrStep acc a = some y ∧ a.ts ≤ y.ts ∧ (∀ x, acc = some x → x.ts ≤ y.ts) ∧
      (acc = some y ∨ y = a) := by
  cases acc with
  | none => exact ⟨a, rfl, le_refl _, fun x hx => absurd hx (by simp), Or.inr rfl⟩
  | some lr =>
    by_cases hlt : lr.ts < a.ts
    · refine ⟨a, by simp [lrStep, hlt], le_refl _, fun x hx => ?_, Or.inr rfl⟩
      cases hx
      exact le_of_lt hlt
    · refine ⟨lr, by simp [lrStep, hlt], le_of_not_lt hlt, fun x hx => ?_, Or.inl rfl⟩
      cases hx
      exact le_refl _

theorem foldl_lrStep_ne_none (recs : List Reading) : ∀ x : Reading,
    recs.foldl lrStep (some x) ≠ none := by
  induction recs with
  | nil => intro x h; cases h
  | cons a rs ih =>
    intro x h
    rw [List.foldl_cons] at h
    obtain ⟨y, hy, -, -, -⟩ := lrStep_spec (some x) a
    rw [hy] at h
    exact ih y h

theorem foldl_lrStep_mem (recs : List Reading) : ∀ (acc : Option Reading) (r : Reading),
    recs.foldl lrStep acc = some r → acc = some r ∨ r ∈ recs := by
  induction recs with
  | nil => intro acc r h; exact Or.inl h
  | cons a rs ih =>
    intro acc r h
    rw [List.foldl_cons] at h
    obtain ⟨y, hy, -, -, hor⟩ := lrStep_spec acc a
    rw [hy] at h
    rcases ih (some y) r h with h2 | h2
    · cases h2
      rcases hor with h3 | h3
      · exact Or.inl h3
      · exact Or.inr (by simp [h3])
    · exact Or.inr (List.mem_cons_of_mem _ h2)

theorem foldl_lrStep_ub (recs : List Reading) : ∀ (acc : Option Reading) (r : Reading),
    recs.foldl lrStep acc = some r →
    (∀ x, acc = some x → x.ts ≤ r.ts) ∧ (∀ x ∈ recs, x.ts ≤ r.ts) := by
  induction recs with
  | nil =>
    intro acc r h
    refine ⟨fun x hx => ?_, fun x hx => absurd hx (List.not_mem_nil x)⟩
    have h2 : acc = some r := h
    rw [hx] at h2
    cases h2
    exact le_refl _
  | cons a rs ih =>
    intro acc r h
    rw [List.foldl_cons] at h
    obtain ⟨y, hy, hay, haccy, -⟩ := lrStep_spec acc a
    rw [hy] at h
    obtain ⟨h1, h2⟩ := ih (some y) r h
    have hyr : y.ts ≤ r.ts := h1 y rfl
    refine ⟨fun x hx => le_trans (haccy x hx) hyr, fun x hx => ?_⟩
    rcases List.mem_cons.mp hx with rfl | hx2
    · exact le_trans hay hyr
    · exact h2 x hx2

theorem lastRecord_eq_none {recs : List Reading} (h : lastRecord recs = none) : recs = [] := by
  cases recs with
  | nil => rfl
  | cons a rs =>
    exfalso
    unfold lastRecord at h
    rw [List.foldl_cons] at h
    exact foldl_lrStep_ne_none rs a h

theorem lastRecord_mem {recs : List Reading} {r : Reading} (h : lastRecord recs = some r) :
    r ∈ recs := by
  rcases foldl_lrStep_mem recs none r h with h2 | h2
  · cases h2
  · exact h2

theorem lastRecord_ub {recs : List Reading} {r : Reading} (h : lastRecord recs = some r) :
    ∀ x ∈ recs, x.ts ≤ r.ts :=
  (foldl_lrStep_ub recs none r h).2


/- ------------------------------------------------------------------ -/
/- get_records lemmas.                                                 -/
/- ------------------------------------------------------------------ -/

theorem distinctTs_mem {l : List ℕ} {t : ℕ} : t ∈ distinctTs l ↔ t ∈ l := by
  induction l with
  | nil => simp [distinctTs]
  | cons a as ih =>
    by_cases h : a ∈ as
    · simp only [distinctTs, if_pos h]
      rw [ih, List.mem_cons]
      constructor
      · exact Or.inr
      · rintro (rfl | h2)
        · exact h
        · exact h2
    · simp only [distinctTs, if_neg h, List.mem_cons, ih]

theorem distinctTs_nodup (l : List ℕ) : (distinctTs l).Nodup := by
  induction l with
  | nil => simp [distinctTs]
  | cons a as ih =>
    by_cases h : a ∈ as
    · simpa [distinctTs, h] using ih
    · simp only [distinctTs, if_neg h]
      exact List.nodup_cons.mpr ⟨fun hmem => h (distinctTs_mem.mp hmem), ih⟩

theorem get_records_map_ts (store : List Row) (uuid : String) (start stop : PyDT)
    (fields : Option (List String)) :
    (get_records store uuid start stop fields).map GroupEntry.ts =
      distinctTs ((store.filter (rowMatch uuid (to_utc start) (to_utc stop) fields)).map Row.ts) := by
  simp only [get_records, List.map_map]
  show List.map (fun t => t) _ = _
  simp

theorem identNodup_pairwise {l : List Row} (h : identNodup l = true) :
    l.Pairwise (fun a b => rowConflict a b = false) := by
  induction l with
  | nil => exact List.Pairwise.nil
  | cons r rs ih =>
    simp only [identNodup, Bool.and_eq_true, Bool.not_eq_true'] at h
    refine List.Pairwise.cons ?_ (ih h.2)
    intro b hb
    simpa using (List.any_eq_false.mp h.1) b hb

theorem dictGet_eq_none {l : List Row} (k : String) (h : ∀ x ∈ l, x.key ≠ k) :
    dictGet (l.map (fun x => (x.key, x.value))) k = none := by
  induction l with
  | nil => rfl
  | cons a as ih =>
    simp only [List.map_cons, dictGet]
    rw [ih (fun x hx => h x (List.mem_cons_of_mem _ hx))]
    rw [if_neg (h a (List.mem_cons_self _ _))]

theorem dictGet_found {l : List Row} {r : Row} (hmem : r ∈ l)
    (hpair : l.Pairwise (fun a b => a.key ≠ b.key)) :
    dictGet (l.map (fun x => (x.key, x.value))) r.key = some r.value := by
  induction l with
  | nil => cases hmem
  | cons a as ih =>
    rcases List.mem_cons.mp hmem with rfl | h2
    · simp only [List.map_cons, dictGet]
      rw [dictGet_eq_none r.key
        (fun x hx he => (List.pairwise_cons.mp hpair).1 x hx he.symm)]
      simp
    · simp only [List.map_cons, dictGet]
      rw [ih h2 (List.pairwise_cons.mp hpair).2]

theorem rowMatch_parts {uuid : String} {s e : ℕ} {fields : Option (List String)} {r : Row}
    (h : rowMatch uuid s e fields r = true) :
    r.uuid = some uuid ∧ s ≤ r.ts ∧ r.ts ≤ e ∧ fieldFilterOk fields r.key = true := by
  simp only [rowMatch, Bool.and_eq_true, beq_iff_eq, decide_eq_true_eq] at h
  exact ⟨h.1.1.1, h.1.1.2, h.1.2, h.2⟩

theorem pairwise_keys_at_ts (store : List Row) (uuid : String) (s e : ℕ)
    (fields : Option (List String)) (t : ℕ) (hnd : identNodup store = true) :
    ((store.filter (rowMatch uuid s e fields)).filter (fun x => x.ts == t)).Pairwise
      (fun a b => a.key ≠ b.key) := by
  have hp : store.Pairwise (fun a b => rowConflict a b = false) := identNodup_pairwise hnd
  have hsub : ((store.filter (rowMatch uuid s e fields)).filter (fun x => x.ts == t)).Sublist store :=
    List.Sublist.trans (List.filter_sublist _) (List.filter_sublist _)
  have hp2 := hp.sublist hsub
  refine List.Pairwise.imp_of_mem ?_ hp2
  intro a b ha hb hconf hkey
  have ha2 := List.mem_filter.mp ha
  have hb2 := List.mem_filter.mp hb
  have ha3 := List.mem_filter.mp ha2.1
  have hb3 := List.mem_filter.mp hb2.1
  have hats : a.ts = t := by simpa using ha2.2
  have hbts : b.ts = t := by simpa using hb2.2
  have hau := (rowMatch_parts ha3.2).1
  have hbu := (rowMatch_parts hb3.2).1
  have : rowConflict a b = true :=
    rowConflict_iff.mpr ⟨by rw [hats, hbts], by rw [hau, hbu], hkey⟩
  rw [hconf] at this
  cases this

/-- C7: get_records first normalizes both bounds to UTC — a naive datetime is
treated as already UTC (its civil reading), an aware one is converted keeping
its instant — and then selects rows with start ≤ ts ≤ end inclusively on both
ends: every stored row of the entity whose ts lies within the normalized
bounds (equality at either bound included) and passes the optional field
filter appears among the yielded timestamps. -/
theorem claim_C7 (c i : ℕ) (store : List Row) (uuid : String) (start stop : PyDT)
    (fields : Option (List String)) (r : Row) :
    to_utc (PyDT.naive c) = c ∧ to_utc (PyDT.aware i) = i ∧
    (r ∈ store → r.uuid = some uuid → to_utc start ≤ r.ts → r.ts ≤ to_utc stop →
      fieldFilterOk fields r.key = true →
      r.ts ∈ (get_records store uuid start stop fields).map GroupEntry.ts) := by
  refine ⟨rfl, rfl, fun hmem huuid hs he hf => ?_⟩
  rw [get_records_map_ts, distinctTs_mem]
  exact List.mem_map.mpr ⟨r, List.mem_filter.mpr ⟨hmem, by simp [rowMatch, huuid, hs, he, hf]⟩, rfl⟩

theorem claim_C7_witness :
    (5 : ℕ) ∈ (get_records [⟨5, some ("e"), ("a"), some 1⟩, ⟨9, some ("e"), ("a"), some 2⟩]
      ("e") (PyDT.naive 5) (PyDT.aware 9) none).map GroupEntry.ts :=
  (claim_C7 5 9 [⟨5, some ("e"), ("a"), some 1⟩, ⟨9, some ("e"), ("a"), some 2⟩]
      ("e") (PyDT.naive 5) (PyDT.aware 9) none ⟨5, some ("e"), ("a"), some 1⟩).2.2
    (by decide) rfl (by decide) (by decide) rfl

/-- C8: for every entity, range and optional field filter — on a store that
satisfies the identity-triple uniqueness invariant — get_records yields
exactly one entry per distinct timestamp among the matching rows (the
yielded timestamps are duplicate-free and are exactly the timestamps of the
matching rows), and the entry at a row's timestamp maps that row's
field_name to its value; in particular two rows with the same ts and
different field_name come back as one grouped entry carrying both fields. -/
theorem claim_C8 (store : List Row) (uuid : String) (start stop : PyDT)
    (fields : Option (List String)) (hnd : identNodup store = true) :
    ((get_records store uuid start stop fields).map GroupEntry.ts).Nodup ∧
    (∀ t, t ∈ (get_records store uuid start stop fields).map GroupEntry.ts ↔
      t ∈ (store.filter (rowMatch uuid (to_utc start) (to_utc stop) fields)).map Row.ts) ∧
    (∀ r ∈ store.filter (rowMatch uuid (to_utc start) (to_utc stop) fields),
      ∀ g ∈ get_records store uuid start stop fields, g.ts = r.ts →
      dictGet g.fields r.key = some r.value) := by
  refine ⟨?_, ?_, ?_⟩
  · rw [get_records_map_ts]
    exact distinctTs_nodup _
  · intro t
    rw [get_records_map_ts, distinctTs_mem]
  · intro r hr g hg hts
    simp only [get_records, List.mem_map] at hg
    obtain ⟨t, ht, rfl⟩ := hg
    have ht2 : t = r.ts := hts
    subst ht2
    exact dictGet_found
      (List.mem_filter.mpr ⟨hr, by simp⟩)
      (pairwise_keys_at_ts store uuid (to_utc start) (to_utc stop) fields r.ts hnd)

theorem claim_C8_witness :
    dictGet (GroupEntry.fields ⟨7, [(("a"), some 1), (("b"), some 2)]⟩) ("b") = some (some 2) := by
  have h := (claim_C8 [⟨7, some ("e"), ("a"), some 1⟩, ⟨7, some ("e"), ("b"), some 2⟩]
      ("e") (PyDT.naive 0) (PyDT.naive 10) none (by decide)).2.2
      ⟨7, some ("e"), ("b"), some 2⟩ (by decide)
      ⟨7, [(("a"), some 1), (("b"), some 2)]⟩ (by decide) rfl
  simpa using h

/- ------------------------------------------------------------------ -/
/- Cache-evolution lemmas for the write path.                          -/
/- ------------------------------------------------------------------ -/

theorem latLe_refl (a : Option ℕ) : latLe a a = true := by
  cases a <;> simp [latLe]

theorem latLe_trans {a b c : Option ℕ} (h1 : latLe a b = true) (h2 : latLe b c = true) :
    latLe a c = true := by
  cases a with
  | none => simp [latLe]
  | some x =>
    cases b with
    | none => simp [latLe] at h1
    | some y =>
      cases c with
      | none => simp [latLe] at h2
      | some z =>
        simp [latLe] at h1 h2 ⊢
        omega

theorem filterByLatest_mem_recs {l : Option ℕ} {recs : List Reading} {r : Reading}
    (h : r ∈ filterByLatest l recs) : r ∈ recs := by
  cases l with
  | none => exact h
  | some sec => exact (List.mem_filter.mp h).1

theorem filterByLatest_subset {l1 l2 : Option ℕ} (h : latLe l1 l2 = true)
    {recs : List Reading} {r : Reading} (hr : r ∈ filterByLatest l2 recs) :
    r ∈ filterByLatest l1 recs := by
  cases l1 with
  | none => exact filterByLatest_mem_recs hr
  | some a =>
    cases l2 with
    | none => simp [latLe] at h
    | some b =>
      simp [latLe] at h
      have hr2 := List.mem_filter.mp hr
      refine List.mem_filter.mpr ⟨hr2.1, ?_⟩
      have hb : b * Micros < r.ts := by simpa using hr2.2
      have : a * Micros ≤ b * Micros := Nat.mul_le_mul_right _ h
      simpa using lt_of_le_of_lt this hb

/-- The identity triples of all candidate rows an entity's filtered readings
would generate. -/
def allCands (cuuid : Option String) : List Reading → List (ℕ × Option String × String)
  | [] => []
  | r :: rs => r.fields.map (fun kv => (r.ts, cuuid, kv.1)) ++ allCands cuuid rs

/-- A row with the given identity triple is present in the store. -/
def identIn (s : List Row) (i : ℕ × Option String × String) : Prop :=
  ∃ x ∈ s, x.ident = i

theorem allCands_mem {cuuid : Option String} {recs : List Reading}
    {i : ℕ × Option String × String} :
    i ∈ allCands cuuid recs ↔ ∃ r ∈ recs, ∃ kv ∈ r.fields, i = (r.ts, cuuid, kv.1) := by
  induction recs with
  | nil => simp [allCands]
  | cons a rs ih =>
    simp only [allCands, List.mem_append, List.mem_map, ih, List.mem_cons]
    constructor
    · rintro (⟨kv, hkv, rfl⟩ | ⟨r, hr, kv, hkv, rfl⟩)
      · exact ⟨a, Or.inl rfl, kv, hkv, rfl⟩
      · exact ⟨r, Or.inr hr, kv, hkv, rfl⟩
    · rintro ⟨r, rfl | hr, kv, hkv, rfl⟩
      · exact Or.inl ⟨kv, hkv, rfl⟩
      · exact Or.inr ⟨r, hr, kv, hkv, rfl⟩

theorem allCands_subset {cuuid : Option String} {recs1 recs2 : List Reading}
    (hsub : ∀ r ∈ recs1, r ∈ recs2) {i : ℕ × Option String × String}
    (hi : i ∈ allCands cuuid recs1) : i ∈ allCands cuuid recs2 := by
  obtain ⟨r, hr, kv, hkv, rfl⟩ := allCands_mem.mp hi
  exact allCands_mem.mpr ⟨r, hsub r hr, kv, hkv, rfl⟩

theorem mem_rowsOf {store : List Row} {cuuid : Option String} {recs : List Reading}
    {r : Reading} {kv : String × Value} (hr : r ∈ recs) (hkv : kv ∈ r.fields)
    (hnd : is_duplicate store ⟨r.ts, cuuid, kv.1, kv.2⟩ = false) :
    (⟨r.ts, cuuid, kv.1, kv.2⟩ : Row) ∈ rowsOf store cuuid recs := by
  induction recs with
  | nil => cases hr
  | cons a rs ih =>
    unfold rowsOf concatMapRows
    rcases List.mem_cons.mp hr with rfl | hr2
    · refine List.mem_append_left _ ?_
      refine List.mem_filterMap.mpr ⟨kv, hkv, ?_⟩
      simp only [hnd]
      rw [if_neg (by simp [hnd])]
    · exact List.mem_append_right _ (ih hr2)

theorem rowsOf_eq_nil {store : List Row} {cuuid : Option String} {recs : List Reading}
    (hcov : ∀ i ∈ allCands cuuid recs, identIn store i) :
    rowsOf store cuuid recs = [] := by
  induction recs with
  | nil => rfl
  | cons a rs ih =>
    unfold rowsOf concatMapRows
    rw [List.append_eq_nil]
    constructor
    · rw [List.filterMap_eq_nil]
      intro kv hkv
      have hc : identIn store (a.ts, cuuid, kv.1) :=
        hcov _ (allCands_mem.mpr ⟨a, List.mem_cons_self _ _, kv, hkv, rfl⟩)
      obtain ⟨x, hx, hid⟩ := hc
      have hconf : rowConflict x ⟨a.ts, cuuid, kv.1, kv.2⟩ = true := by
        refine rowConflict_iff.mpr ?_
        have h1 : x.ts = a.ts := congrArg Prod.fst hid
        have h2 : x.uuid = cuuid := congrArg (fun p => p.2.1) hid
        have h3 : x.key = kv.1 := congrArg (fun p => p.2.2) hid
        exact ⟨h1, h2, h3⟩
      have hdup : is_duplicate store ⟨a.ts, cuuid, kv.1, kv.2⟩ = true :=
        is_duplicate_eq_true_iff.mpr ⟨x, hx, hconf⟩
      simp [hdup]
    · exact ih (fun i hi => hcov i (by
        rcases allCands_mem.mp hi with ⟨r, hr, kv, hkv, rfl⟩
        exact allCands_mem.mpr ⟨r, List.mem_cons_of_mem _ hr, kv, hkv, rfl⟩))

theorem writeEntity_store_ext {ctx : Option KeyCtx} {st : St} {u : String}
    {recs : List Reading} {st2 : St} (he : writeEntity ctx st u recs = Except.ok st2) :
    st2.store = st.store ++ rowsOf st.store (apply_key_ctx ctx u)
      (filterByLatest (latestOf ctx st u) recs) := by
  obtain ⟨store2, hc, hst2⟩ := writeEntity_ok_iff.mp he
  obtain ⟨rfl, -, -, -⟩ := commitRows_ok hc
  rw [hst2]

theorem writeRecordsAux_store_ext (ctx : Option KeyCtx) (data : List (String × List Reading)) :
    ∀ st : St, ∃ ext, (writeRecordsAux ctx st data).1.store = st.store ++ ext := by
  induction data with
  | nil => intro st; exact ⟨[], by simp [writeRecordsAux]⟩
  | cons q rest ih =>
    obtain ⟨u2, recs2⟩ := q
    intro st
    rw [writeRecordsAux]
    cases he : writeEntity ctx st u2 recs2 with
    | error e => exact ⟨[], by simp⟩
    | ok st2 =>
      obtain ⟨ext2, hext2⟩ := ih st2
      refine ⟨rowsOf st.store (apply_key_ctx ctx u2)
        (filterByLatest (latestOf ctx st u2) recs2) ++ ext2, ?_⟩
      show (writeRecordsAux ctx st2 rest).1.store = _
      rw [hext2, writeEntity_store_ext he, List.append_assoc]

theorem lookupFirst_cons (k2 : String) (e : LatestEntry) (c : List (String × LatestEntry))
    (k : String) :
    lookupFirst ((k2, e) :: c) k = if k2 = k then some e else lookupFirst c k := rfl

theorem get_cache_key_false (ctx : Option KeyCtx) (u : String) :
    get_cache_key ctx u false = cache_key_fmt u := rfl

theorem latestOf_cache_eq {ctx : Option KeyCtx} {u : String} {st2 st : St}
    (h : st2.cache = st.cache) : latestOf ctx st2 u = latestOf ctx st u := by
  unfold latestOf get_latest
  rw [h]

theorem latestOf_set_ne {ctx : Option KeyCtx} {st2 st : St} {u2 u : String} {lr : Reading}
    (h : st2.cache = set_latest ctx st.cache u2 lr)
    (hne : get_cache_key ctx u2 true ≠ cache_key_fmt u) :
    latestOf ctx st2 u = latestOf ctx st u := by
  unfold latestOf get_latest
  rw [h]
  show (lookupFirst ((get_cache_key ctx u2 true, _) :: st.cache) _).map _ = _
  rw [lookupFirst_cons, if_neg (fun hh => hne (hh.trans (get_cache_key_false ctx u)))]

theorem latestOf_set_eq {ctx : Option KeyCtx} {st2 st : St} {u : String} {lr : Reading}
    (h : st2.cache = set_latest ctx st.cache u lr)
    (hkey : get_cache_key ctx u true = cache_key_fmt u) :
    latestOf ctx st2 u = some (lr.ts / Micros) := by
  unfold latestOf get_latest
  rw [h]
  show (lookupFirst ((get_cache_key ctx u true, _) :: st.cache) _).map _ = _
  rw [lookupFirst_cons, if_pos (hkey.trans (get_cache_key_false ctx u).symm)]
  rfl

theorem writeEntity_cache_cases {ctx : Option KeyCtx} {st : St} {u2 : String}
    {recs : List Reading} {st2 : St} (he : writeEntity ctx st u2 recs = Except.ok st2) :
    st2.cache = st.cache ∨
    ∃ lr, lastRecord (filterByLatest (latestOf ctx st u2) recs) = some lr ∧
      st2.cache = set_latest ctx st.cache u2 lr := by
  obtain ⟨store2, hc, hst2⟩ := writeEntity_ok_iff.mp he
  cases hlast : lastRecord (filterByLatest (latestOf ctx st u2) recs) with
  | none => exact Or.inl (by rw [hst2, hlast])
  | some lr => exact Or.inr ⟨lr, rfl, by rw [hst2, hlast]⟩

theorem writeEntity_latest_untouched {ctx : Option KeyCtx} {st : St} {u2 : String}
    {recs : List Reading} {st2 : St} (he : writeEntity ctx st u2 recs = Except.ok st2)
    (u : String) (hne : get_cache_key ctx u2 true ≠ cache_key_fmt u) :
    latestOf ctx st2 u = latestOf ctx st u := by
  rcases writeEntity_cache_cases he with h | ⟨lr, -, h⟩
  · exact latestOf_cache_eq h
  · exact latestOf_set_ne h hne

theorem writeEntity_latest_self {ctx : Option KeyCtx} {st : St} {u : String}
    {recs : List Reading} {st2 : St} (he : writeEntity ctx st u recs = Except.ok st2) :
    latLe (latestOf ctx st u) (latestOf ctx st2 u) = true := by
  rcases writeEntity_cache_cases he with h | ⟨lr, hlast, h⟩
  · rw [latestOf_cache_eq h]
    exact latLe_refl _
  · by_cases hkey : get_cache_key ctx u true = cache_key_fmt u
    · rw [latestOf_set_eq h hkey]
      cases hl : latestOf ctx st u with
      | none => simp [latLe]
      | some sec =>
        rw [hl] at hlast
        have hmem := lastRecord_mem hlast
        have hlt : sec * Micros < lr.ts := by
          simpa using (List.mem_filter.mp hmem).2
        have hdiv : sec ≤ lr.ts / Micros :=
          (Nat.le_div_iff_mul_le (by norm_num [Micros])).mpr (le_of_lt hlt)
        simp [latLe, hdiv]
    · rw [latestOf_set_ne h hkey]
      exact latLe_refl _

theorem writeRecordsAux_latest_mono (ctx : Option KeyCtx) (u : String)
    (data : List (String × List Reading)) :
    ∀ st : St,
    (∀ p ∈ data, p.1 ≠ u → get_cache_key ctx p.1 true ≠ cache_key_fmt u) →
    latLe (latestOf ctx st u) (latestOf ctx (writeRecordsAux ctx st data).1 u) = true := by
  induction data with
  | nil => intro st _; exact latLe_refl _
  | cons q rest ih =>
    obtain ⟨u2, recs2⟩ := q
    intro st hcond
    rw [writeRecordsAux]
    cases he : writeEntity ctx st u2 recs2 with
    | error e => exact latLe_refl _
    | ok st2 =>
      have hstep : latLe (latestOf ctx st u) (latestOf ctx st2 u) = true := by
        by_cases hu : u2 = u
        · subst hu
          exact writeEntity_latest_self he
        · rw [writeEntity_latest_untouched he u
            (hcond (u2, recs2) (List.mem_cons_self _ _) hu)]
          exact latLe_refl _
      exact latLe_trans hstep
        (ih st2 (fun p hp => hcond p (List.mem_cons_of_mem _ hp)))

theorem writeEntity_ok_covers {ctx : Option KeyCtx} {st : St} {u : String}
    {recs : List Reading} {st2 : St} (he : writeEntity ctx st u recs = Except.ok st2) :
    ∀ i ∈ allCands (apply_key_ctx ctx u) (filterByLatest (latestOf ctx st u) recs),
      identIn st2.store i := by
  intro i hi
  obtain ⟨r, hr, kv, hkv, rfl⟩ := allCands_mem.mp hi
  rw [writeEntity_store_ext he]
  by_cases hdup : is_duplicate st.store ⟨r.ts, apply_key_ctx ctx u, kv.1, kv.2⟩ = true
  · obtain ⟨x, hx, hconf⟩ := is_duplicate_eq_true_iff.mp hdup
    obtain ⟨h1, h2, h3⟩ := rowConflict_iff.mp hconf
    refine ⟨x, List.mem_append_left _ hx, ?_⟩
    simp [Row.ident, h1, h2, h3]
  · refine ⟨⟨r.ts, apply_key_ctx ctx u, kv.1, kv.2⟩, List.mem_append_right _ ?_, rfl⟩
    exact mem_rowsOf hr hkv (by simpa using hdup)

/-- No batch entity's latest-cache write key (built from its contextualized
id) shadows another batch entity's raw lookup key.  This always holds when
no key context is configured; with a key context it can only fail when a raw
batch id collides with a derived id. -/
def NoShadow (ctx : Option KeyCtx) (us : List String) : Prop :=
  ∀ u2 ∈ us, ∀ u ∈ us, u2 ≠ u → get_cache_key ctx u2 true ≠ cache_key_fmt u

theorem noShadow_of_none (us : List String) : NoShadow none us := by
  intro u2 _ u _ hne heq
  have : get_cache_key none u2 true = cache_key_fmt u2 := rfl
  rw [this] at heq
  exact hne (cache_key_fmt_inj heq)

theorem call1_summary (ctx : Option KeyCtx) (data : List (String × List Reading)) :
    ∀ st0 : St,
    (data.map Prod.fst).Nodup →
    NoShadow ctx (data.map Prod.fst) →
    (writeRecordsAux ctx st0 data).2 = none →
    ∀ p ∈ data, ∃ l1 : Option ℕ,
      latLe l1 (latestOf ctx (writeRecordsAux ctx st0 data).1 p.1) = true ∧
      ∀ i ∈ allCands (apply_key_ctx ctx p.1) (filterByLatest l1 p.2),
        identIn (writeRecordsAux ctx st0 data).1.store i := by
  induction data with
  | nil => intro st0 _ _ _ p hp; cases hp
  | cons q rest ih =>
    obtain ⟨u2, recs2⟩ := q
    intro st0 hnodup hshadow hok p hp
    rw [writeRecordsAux] at hok ⊢
    cases he : writeEntity ctx st0 u2 recs2 with
    | error e =>
      rw [he] at hok
      exact absurd (hok : (some () : Option Unit) = none) (by simp)
    | ok st2 =>
      rw [he] at hok
      have hok2 : (writeRecordsAux ctx st2 rest).2 = none := hok
      show ∃ l1, latLe l1 (latestOf ctx (writeRecordsAux ctx st2 rest).1 p.1) = true ∧
        ∀ i ∈ allCands (apply_key_ctx ctx p.1) (filterByLatest l1 p.2),
          identIn (writeRecordsAux ctx st2 rest).1.store i
      rcases List.mem_cons.mp hp with rfl | hp2
      · refine ⟨latestOf ctx st0 u2, ?_, ?_⟩
        · have h1 : latLe (latestOf ctx st0 u2) (latestOf ctx st2 u2) = true :=
            writeEntity_latest_self he
          have h2 : latLe (latestOf ctx st2 u2)
              (latestOf ctx (writeRecordsAux ctx st2 rest).1 u2) = true := by
            apply writeRecordsAux_latest_mono
            intro p2 hp2 hne
            refine hshadow p2.1 ?_ u2 (by simp) hne
            simp only [List.map_cons, List.mem_cons]
            exact Or.inr (List.mem_map.mpr ⟨p2, hp2, rfl⟩)
          exact latLe_trans h1 h2
        · intro i hi
          obtain ⟨x, hx, hxid⟩ := writeEntity_ok_covers he i hi
          obtain ⟨ext, hext⟩ := writeRecordsAux_store_ext ctx rest st2
          exact ⟨x, by rw [hext]; exact List.mem_append_left _ hx, hxid⟩
      · refine ih st2 ?_ ?_ hok2 p hp2
        · exact (List.nodup_cons.mp hnodup).2
        · intro ua hua ub hub hne
          exact hshadow ua (List.mem_cons_of_mem _ hua) ub (List.mem_cons_of_mem _ hub) hne

theorem call2_noop (ctx : Option KeyCtx) (data : List (String × List Reading)) :
    ∀ st : St,
    (data.map Prod.fst).Nodup →
    NoShadow ctx (data.map Prod.fst) →
    (∀ p ∈ data, ∃ l1 : Option ℕ,
      latLe l1 (latestOf ctx st p.1) = true ∧
      ∀ i ∈ allCands (apply_key_ctx ctx p.1) (filterByLatest l1 p.2), identIn st.store i) →
    (writeRecordsAux ctx st data).1.store = st.store ∧
    (writeRecordsAux ctx st data).2 = none := by
  induction data with
  | nil => intro st _ _ _; exact ⟨rfl, rfl⟩
  | cons q rest ih =>
    obtain ⟨u2, recs2⟩ := q
    intro st hnodup hshadow hinv
    obtain ⟨l1, hl1, hcov⟩ := hinv (u2, recs2) (List.mem_cons_self _ _)
    have hcov2 : ∀ i ∈ allCands (apply_key_ctx ctx u2)
        (filterByLatest (latestOf ctx st u2) recs2), identIn st.store i :=
      fun i hi => hcov i (allCands_subset (fun r hr => filterByLatest_subset hl1 hr) hi)
    have hrows : rowsOf st.store (apply_key_ctx ctx u2)
        (filterByLatest (latestOf ctx st u2) recs2) = [] := rowsOf_eq_nil hcov2
    rw [writeRecordsAux]
    cases he : writeEntity ctx st u2 recs2 with
    | error e =>
      exfalso
      simp only [writeEntity] at he
      rw [hrows] at he
      have hc : commitRows st.store [] = Except.ok (st.store ++ []) := rfl
      rw [hc] at he
      cases he
    | ok st2 =>
      have hst2store : st2.store = st.store := by
        rw [writeEntity_store_ext he, hrows, List.append_nil]
      have hinv2 : ∀ p ∈ rest, ∃ l1p : Option ℕ,
          latLe l1p (latestOf ctx st2 p.1) = true ∧
          ∀ i ∈ allCands (apply_key_ctx ctx p.1) (filterByLatest l1p p.2),
            identIn st2.store i := by
        intro p hp
        obtain ⟨l1p, hp1, hp2⟩ := hinv p (List.mem_cons_of_mem _ hp)
        have hne : p.1 ≠ u2 := by
          intro hh
          have hu2notin := (List.nodup_cons.mp hnodup).1
          exact hu2notin (hh ▸ List.mem_map.mpr ⟨p, hp, rfl⟩)
        have huntouched : latestOf ctx st2 p.1 = latestOf ctx st p.1 :=
          writeEntity_latest_untouched he p.1
            (hshadow u2 (by simp) p.1
              (by simp only [List.map_cons, List.mem_cons]; exact Or.inr (List.mem_map.mpr ⟨p, hp, rfl⟩))
              (fun hh => hne hh.symm))
        refine ⟨l1p, by rw [huntouched]; exact hp1, ?_⟩
        intro i hi
        obtain ⟨x, hx, hid⟩ := hp2 i hi
        exact ⟨x, by rw [hst2store]; exact hx, hid⟩
      obtain ⟨hstore, hok⟩ := ih st2 (List.nodup_cons.mp hnodup).2
        (fun ua hua ub hub hne =>
          hshadow ua (List.mem_cons_of_mem _ hua) ub (List.mem_cons_of_mem _ hub) hne)
        hinv2
      exact ⟨by rw [hstore, hst2store], hok⟩

/-- C2 (amended): writing the same batch twice is idempotent — the second
write_records call inserts no rows, leaving the durable store exactly as the
first successful call left it — for every batch with distinct entity ids and
every initial store and cache state, provided no batch entity's
contextualized latest-cache key shadows another batch entity's raw lookup
key (NoShadow; this always holds when no key context is configured, and with
a key context it holds unless a raw batch id collides with a derived id). -/
theorem claim_C2 (ctx : Option KeyCtx) (st0 : St) (data : List (String × List Reading))
    (hnodup : (data.map Prod.fst).Nodup)
    (hshadow : NoShadow ctx (data.map Prod.fst))
    (hok : (write_records ctx st0 data).2 = none) :
    (write_records ctx (write_records ctx st0 data).1 data).1.store =
      (write_records ctx st0 data).1.store ∧
    (write_records ctx (write_records ctx st0 data).1 data).2 = none := by
  unfold write_records at hok ⊢
  exact call2_noop ctx data _ hnodup hshadow (call1_summary ctx data st0 hnodup hshadow hok)

/-- C2 counterexample: with a key context (modname p) and a cache holding a
latest entry at the derived key of batch entity x — which is also the raw
key of batch entity p:x — the first call writes 2 rows and entity x's
set_latest lowers the entry that entity p:x reads back; the second call of
the same batch then re-admits a previously filtered reading and inserts a
third row, so writing the batch twice yields 3 rows where writing it once
yields 2. -/
theorem claim_C2_counterexample :
    ((write_records (some ⟨some ("p")⟩)
        ⟨[], [(("okq:p:x:latest"), ⟨100, []⟩)]⟩
        [(("p:x"), [⟨150000000, [(("a"), some 1)]⟩, ⟨50000000, [(("c"), some 3)]⟩]),
         (("x"), [⟨20000000, [(("b"), some 2)]⟩])]).2 = none) ∧
    ((write_records (some ⟨some ("p")⟩)
        ⟨[], [(("okq:p:x:latest"), ⟨100, []⟩)]⟩
        [(("p:x"), [⟨150000000, [(("a"), some 1)]⟩, ⟨50000000, [(("c"), some 3)]⟩]),
         (("x"), [⟨20000000, [(("b"), some 2)]⟩])]).1.store.length = 2) ∧
    ((write_records (some ⟨some ("p")⟩)
        (write_records (some ⟨some ("p")⟩)
          ⟨[], [(("okq:p:x:latest"), ⟨100, []⟩)]⟩
          [(("p:x"), [⟨150000000, [(("a"), some 1)]⟩, ⟨50000000, [(("c"), some 3)]⟩]),
           (("x"), [⟨20000000, [(("b"), some 2)]⟩])]).1
        [(("p:x"), [⟨150000000, [(("a"), some 1)]⟩, ⟨50000000, [(("c"), some 3)]⟩]),
         (("x"), [⟨20000000, [(("b"), some 2)]⟩])]).2 = none) ∧
    ((write_records (some ⟨some ("p")⟩)
        (write_records (some ⟨some ("p")⟩)
          ⟨[], [(("okq:p:x:latest"), ⟨100, []⟩)]⟩
          [(("p:x"), [⟨150000000, [(("a"), some 1)]⟩, ⟨50000000, [(("c"), some 3)]⟩]),
           (("x"), [⟨20000000, [(("b"), some 2)]⟩])]).1
        [(("p:x"), [⟨150000000, [(("a"), some 1)]⟩, ⟨50000000, [(("c"), some 3)]⟩]),
         (("x"), [⟨20000000, [(("b"), some 2)]⟩])]).1.store.length = 3) := by
  exact ⟨rfl, rfl, rfl, rfl⟩

theorem claim_C2_witness :
    (write_records none
        (write_records none ⟨[], []⟩ [(("e1"), [⟨0, [(("a"), some 1)]⟩])]).1
        [(("e1"), [⟨0, [(("a"), some 1)]⟩])]).1.store =
      (write_records none ⟨[], []⟩ [(("e1"), [⟨0, [(("a"), some 1)]⟩])]).1.store ∧
    (write_records none
        (write_records none ⟨[], []⟩ [(("e1"), [⟨0, [(("a"), some 1)]⟩])]).1
        [(("e1"), [⟨0, [(("a"), some 1)]⟩])]).2 = none :=
  claim_C2 none ⟨[], []⟩ [(("e1"), [⟨0, [(("a"), some 1)]⟩])]
    (by decide) (noShadow_of_none _) rfl

theorem writeRecordsAux_latest_bound (u : String) (data : List (String × List Reading)) :
    ∀ st : St,
    (∀ p ∈ data, ∀ r ∈ p.2, r.fields ≠ []) →
    (∀ sec, latestOf none st u = some sec →
      ∃ x ∈ st.store, x.uuid = some u ∧ sec * Micros ≤ x.ts) →
    ∀ sec, latestOf none (writeRecordsAux none st data).1 u = some sec →
      ∃ x ∈ (writeRecordsAux none st data).1.store, x.uuid = some u ∧ sec * Micros ≤ x.ts := by
  induction data with
  | nil => intro st _ hbound sec hsec; exact hbound sec hsec
  | cons q rest ih =>
    obtain ⟨u2, recs2⟩ := q
    intro st hfields hbound
    rw [writeRecordsAux]
    cases he : writeEntity none st u2 recs2 with
    | error e => exact hbound
    | ok st2 =>
      refine ih st2 (fun p hp => hfields p (List.mem_cons_of_mem _ hp)) ?_
      intro sec hsec
      have hext := writeEntity_store_ext he
      by_cases hu : u2 = u
      · subst hu
        rcases writeEntity_cache_cases he with hcache | ⟨lr, hlast, hcache⟩
        · obtain ⟨x, hx, hxu, hxts⟩ :=
            hbound sec (by rw [← latestOf_cache_eq hcache]; exact hsec)
          exact ⟨x, by rw [hext]; exact List.mem_append_left _ hx, hxu, hxts⟩
        · have hl2 := latestOf_set_eq hcache rfl
          rw [hl2] at hsec
          have hsec2 : sec = lr.ts / Micros := (Option.some.inj hsec).symm
          subst hsec2
          have hlr_mem := lastRecord_mem hlast
          have hlr_recs : lr ∈ recs2 := filterByLatest_mem_recs hlr_mem
          have hfne : lr.fields ≠ [] := hfields (u2, recs2) (List.mem_cons_self _ _) lr hlr_recs
          obtain ⟨kv, hkv⟩ := List.exists_mem_of_ne_nil _ hfne
          have hbnd : lr.ts / Micros * Micros ≤ lr.ts := Nat.div_mul_le_self _ _
          by_cases hdup : is_duplicate st.store ⟨lr.ts, apply_key_ctx none u2, kv.1, kv.2⟩ = true
          · obtain ⟨x, hx, hconf⟩ := is_duplicate_eq_true_iff.mp hdup
            obtain ⟨h1, h2, h3⟩ := rowConflict_iff.mp hconf
            refine ⟨x, by rw [hext]; exact List.mem_append_left _ hx, ?_, ?_⟩
            · rw [h2]; rfl
            · rw [h1]; exact hbnd
          · have hrow := mem_rowsOf hlr_mem hkv (by simpa using hdup)
            exact ⟨⟨lr.ts, apply_key_ctx none u2, kv.1, kv.2⟩,
              by rw [hext]; exact List.mem_append_right _ hrow, rfl, hbnd⟩
      · have hne : get_cache_key none u2 true ≠ cache_key_fmt u := by
          intro hh
          have h1 : get_cache_key none u2 true = cache_key_fmt u2 := rfl
          rw [h1] at hh
          exact hu (cache_key_fmt_inj hh)
        have huntouched := writeEntity_latest_untouched he u hne
        obtain ⟨x, hx, hxu, hxts⟩ := hbound sec (by rw [← huntouched]; exact hsec)
        exact ⟨x, by rw [hext]; exact List.mem_append_left _ hx, hxu, hxts⟩

/-- C3 (amended): without entity-id contextualization (key_ctx is None), an
entity's latest-cache timestamp never decreases across a write_records call
(hence across any sequence of such calls), and — for batches whose readings
all carry at least one field, starting from a state where a cached latest
timestamp is backed by a stored row of that entity — the cached timestamp
stays ≤ the maximum ts stored for that entity.  Both provisos are forced by
the counterexample: with a key context configured, monotonicity fails
(set_latest writes the contextualized key while the filter reads the raw
key, so a later batch with an older timestamp is applied and lowers the
entry), and even without one, a reading with an empty fields dict stores no
row yet still sets the cache, putting the cached timestamp above every
timestamp ever written. -/
theorem claim_C3 (st0 : St) (data : List (String × List Reading)) (u : String)
    (hfields : ∀ p ∈ data, ∀ r ∈ p.2, r.fields ≠ [])
    (hbound : ∀ sec, latestOf none st0 u = some sec →
      ∃ x ∈ st0.store, x.uuid = some u ∧ sec * Micros ≤ x.ts)
    (hok : (write_records none st0 data).2 = none) :
    latLe (latestOf none st0 u) (latestOf none (write_records none st0 data).1 u) = true ∧
    ∀ sec, latestOf none (write_records none st0 data).1 u = some sec →
      ∃ x ∈ (write_records none st0 data).1.store, x.uuid = some u ∧ sec * Micros ≤ x.ts := by
  constructor
  · apply writeRecordsAux_latest_mono
    intro p hp hne hh
    have h1 : get_cache_key none p.1 true = cache_key_fmt p.1 := rfl
    rw [h1] at hh
    exact hne (cache_key_fmt_inj hh)
  · exact writeRecordsAux_latest_bound u data st0 hfields hbound

/-- C3 counterexample, refuting both conjuncts of the claim as stated.
First: with a key context (modname p), two consecutive successful and
applied write_records calls for entity e — the first carrying ts 100s, the
second ts 50s — leave the entity's latest-cache entry at 50s after it was
100s: the timestamp decreases, because get_latest reads the raw key and
never sees the contextualized entry written by set_latest, so the second
batch is not filtered.  Second: even with no key context, a successful call
whose single reading has an empty fields dict (ts 100s) stores no row at
all — the store stays empty — yet still runs set_latest, so the cached
latest timestamp 100s exceeds every timestamp ever successfully written for
the entity (nothing was). -/
theorem claim_C3_counterexample :
    ((write_records (some ⟨some ("p")⟩) ⟨[], []⟩
        [(("e"), [⟨100000000, [(("a"), some 1)]⟩])]).2 = none) ∧
    ((write_records (some ⟨some ("p")⟩)
        (write_records (some ⟨some ("p")⟩) ⟨[], []⟩
          [(("e"), [⟨100000000, [(("a"), some 1)]⟩])]).1
        [(("e"), [⟨50000000, [(("b"), some 2)]⟩])]).2 = none) ∧
    (lookupFirst
      (write_records (some ⟨some ("p")⟩) ⟨[], []⟩
        [(("e"), [⟨100000000, [(("a"), some 1)]⟩])]).1.cache
      (get_cache_key (some ⟨some ("p")⟩) ("e") true) = some ⟨100, [(("a"), some 1)]⟩) ∧
    (lookupFirst
      (write_records (some ⟨some ("p")⟩)
        (write_records (some ⟨some ("p")⟩) ⟨[], []⟩
          [(("e"), [⟨100000000, [(("a"), some 1)]⟩])]).1
        [(("e"), [⟨50000000, [(("b"), some 2)]⟩])]).1.cache
      (get_cache_key (some ⟨some ("p")⟩) ("e") true) = some ⟨50, [(("b"), some 2)]⟩) ∧
    ((write_records none ⟨[], []⟩ [(("e"), [⟨100000000, []⟩])]).2 = none) ∧
    ((write_records none ⟨[], []⟩ [(("e"), [⟨100000000, []⟩])]).1.store = []) ∧
    (latestOf none (write_records none ⟨[], []⟩ [(("e"), [⟨100000000, []⟩])]).1 ("e") =
      some 100) :=
  ⟨rfl, rfl, rfl, rfl, rfl, rfl, rfl⟩

theorem claim_C3_witness :
    latLe (latestOf none ⟨[], []⟩ ("e"))
      (latestOf none
        (write_records none ⟨[], []⟩ [(("e"), [⟨1500000, [(("a"), some 1)]⟩])]).1 ("e")) = true :=
  (claim_C3 ⟨[], []⟩ [(("e"), [⟨1500000, [(("a"), some 1)]⟩])] ("e")
    (by decide) (fun _ h => Option.noConfusion h) rfl).1

/- ------------------------------------------------------------------ -/
/- Timestamp codec lemmas.                                             -/
/- ------------------------------------------------------------------ -/

theorem digitVal_digitChar {k : ℕ} (h : k < 10) : digitVal (digitChar k) = some k := by
  interval_cases k <;> rfl

theorem parse4_pad {n : ℕ} (h : n ≤ 9999) :
    parse4 (digitChar (n / 1000)) (digitChar (n / 100 % 10)) (digitChar (n / 10 % 10))
      (digitChar (n % 10)) = some n := by
  unfold parse4
  rw [digitVal_digitChar (by omega), digitVal_digitChar (Nat.mod_lt _ (by norm_num)),
      digitVal_digitChar (Nat.mod_lt _ (by norm_num)),
      digitVal_digitChar (Nat.mod_lt _ (by norm_num))]
  simp only [Option.some.injEq]
  omega

theorem parse2_pad {n : ℕ} (h : n ≤ 99) :
    parse2 (digitChar (n / 10)) (digitChar (n % 10)) = some n := by
  unfold parse2
  rw [digitVal_digitChar (by omega), digitVal_digitChar (Nat.mod_lt _ (by norm_num))]
  simp only [Option.some.injEq]
  omega

theorem astimezoneUTC_utc (y mo dd h mi s mic : ℕ) (hh : h ≤ 23) (hmi : mi ≤ 59)
    (hs : s ≤ 59) :
    astimezoneUTC ⟨y, mo, dd, h, mi, s, mic, some 0⟩ = ⟨y, mo, dd, h, mi, s, mic, some 0⟩ := by
  have hlt : ((h * 3600 + mi * 60 + s : ℕ) : ℤ) < 86400 := by
    have : h * 3600 + mi * 60 + s < 86400 := by omega
    exact_mod_cast this
  have hge : (0 : ℤ) ≤ ((h * 3600 + mi * 60 + s : ℕ) : ℤ) := by positivity
  simp only [astimezoneUTC, sub_zero]
  rw [Int.ediv_eq_zero_of_lt hge hlt, Int.emod_eq_of_lt hge hlt]
  rw [if_pos (le_refl (0 : ℤ))]
  simp only [Int.toNat_zero, Function.iterate_zero, id_eq, Int.toNat_natCast]
  have f1 : (h * 3600 + mi * 60 + s) / 3600 = h := by omega
  have f2 : (h * 3600 + mi * 60 + s) / 60 % 60 = mi := by omega
  have f3 : (h * 3600 + mi * 60 + s) % 60 = s := by omega
  rw [f1, f2, f3]

theorem daysInMonth_le (y m : ℕ) : daysInMonth y m ≤ 31 := by
  unfold daysInMonth
  split
  all_goals first
  | (split <;> norm_num)
  | norm_num

theorem string_to_ts_format (y mo dd h mi s : ℕ)
    (h1 : 1 ≤ y) (h2 : y ≤ 9999) (h3 : 1 ≤ mo) (h4 : mo ≤ 12)
    (h5 : 1 ≤ dd) (h6 : dd ≤ daysInMonth y mo) (h7 : h ≤ 23) (h8 : mi ≤ 59) (h9 : s ≤ 59) :
    string_to_ts (formatDT ⟨y, mo, dd, h, mi, s, 0, some 0⟩) =
      some ⟨y, mo, dd, h, mi, s, 0, some 0⟩ := by
  unfold formatDT string_to_ts
  simp only [pad4, pad2, List.cons_append, List.nil_append]
  rw [if_pos (by simp)]
  rw [parse4_pad h2, parse2_pad (by omega),
      parse2_pad (by have := daysInMonth_le y mo; omega), parse2_pad (by omega),
      parse2_pad (by omega), parse2_pad (by omega)]
  show (if 1 ≤ y ∧ 1 ≤ mo ∧ mo ≤ 12 ∧ 1 ≤ dd ∧ dd ≤ daysInMonth y mo ∧
      h ≤ 23 ∧ mi ≤ 59 ∧ s ≤ 59 then
      some (⟨y, mo, dd, h, mi, s, 0, some 0⟩ : PyDateTime) else none) =
    some ⟨y, mo, dd, h, mi, s, 0, some 0⟩
  rw [if_pos ⟨h1, h3, h4, h5, h6, h7, h8, h9⟩]

/-- C9: for every timezone-aware UTC datetime truncated to whole seconds
(microseconds = 0) and valid in the ranges the Python datetime constructor
enforces, decoding its encoding gives it back exactly:
_string_to_ts(_ts_to_string(ts)) == ts. -/
theorem claim_C9 (d : PyDateTime) (hv : validDT d = true) (hmic : d.micro = 0)
    (htz : d.tzOffset = some 0) :
    string_to_ts (ts_to_string d) = some d := by
  obtain ⟨y, mo, dd, h, mi, s, mic, tz⟩ := d
  have hmic2 : mic = 0 := hmic
  have htz2 : tz = some 0 := htz
  subst hmic2
  subst htz2
  simp only [validDT, Bool.and_eq_true, decide_eq_true_eq] at hv
  obtain ⟨⟨⟨⟨⟨⟨⟨⟨⟨b1, b2⟩, b3⟩, b4⟩, b5⟩, b6⟩, b7⟩, b8⟩, b9⟩, -⟩ := hv
  have hts : ts_to_string ⟨y, mo, dd, h, mi, s, 0, some 0⟩ =
      formatDT ⟨y, mo, dd, h, mi, s, 0, some 0⟩ := by
    show formatDT (astimezoneUTC ⟨y, mo, dd, h, mi, s, 0, some 0⟩) = _
    rw [astimezoneUTC_utc _ _ _ _ _ _ _ b7 b8 b9]
  rw [hts]
  exact string_to_ts_format y mo dd h mi s b1 b2 b3 b4 b5 b6 b7 b8 b9

theorem claim_C9_witness :
    validDT ⟨2016, 7, 13, 10, 9, 56, 0, some 0⟩ = true ∧
    string_to_ts (ts_to_string ⟨2016, 7, 13, 10, 9, 56, 0, some 0⟩) =
      some ⟨2016, 7, 13, 10, 9, 56, 0, some 0⟩ :=
  ⟨by decide, claim_C9 ⟨2016, 7, 13, 10, 9, 56, 0, some 0⟩ (by decide) rfl rfl⟩

/- ------------------------------------------------------------------ -/
/- Splitting a write_records run and tracking one cache key through it. -/
/- ------------------------------------------------------------------ -/

theorem writeRecordsAux_cons_ok {ctx : Option KeyCtx} {st : St} {u2 : String}
    {recs2 : List Reading} {st2 : St} {l : List (String × List Reading)}
    (he : writeEntity ctx st u2 recs2 = Except.ok st2) :
    writeRecordsAux ctx st ((u2, recs2) :: l) = writeRecordsAux ctx st2 l := by
  rw [writeRecordsAux, he]

theorem writeRecordsAux_cons_err {ctx : Option KeyCtx} {st : St} {u2 : String}
    {recs2 : List Reading} {e : Unit} {l : List (String × List Reading)}
    (he : writeEntity ctx st u2 recs2 = Except.error e) :
    writeRecordsAux ctx st ((u2, recs2) :: l) = (st, some ()) := by
  rw [writeRecordsAux, he]

theorem writeRecordsAux_append (ctx : Option KeyCtx) (l1 l2 : List (String × List Reading)) :
    ∀ st : St, (writeRecordsAux ctx st (l1 ++ l2)).2 = none →
    (writeRecordsAux ctx st l1).2 = none ∧
    writeRecordsAux ctx st (l1 ++ l2) = writeRecordsAux ctx (writeRecordsAux ctx st l1).1 l2 := by
  induction l1 with
  | nil => intro st _; exact ⟨rfl, rfl⟩
  | cons q rest ih =>
    obtain ⟨u2, recs2⟩ := q
    intro st h
    rw [List.cons_append] at h ⊢
    cases he : writeEntity ctx st u2 recs2 with
    | error e =>
      rw [writeRecordsAux_cons_err he] at h
      exact absurd h (by simp)
    | ok st2 =>
      rw [writeRecordsAux_cons_ok he] at h
      obtain ⟨ha, hb⟩ := ih st2 h
      rw [writeRecordsAux_cons_ok he, writeRecordsAux_cons_ok he]
      exact ⟨ha, hb⟩

theorem writeRecordsAux_lookup_untouched (ctx : Option KeyCtx) (K : String)
    (data : List (String × List Reading)) :
    ∀ st : St,
    (∀ p ∈ data, get_cache_key ctx p.1 true ≠ K) →
    lookupFirst ((writeRecordsAux ctx st data).1).cache K = lookupFirst st.cache K := by
  induction data with
  | nil => intro st _; rfl
  | cons q rest ih =>
    obtain ⟨u2, recs2⟩ := q
    intro st hcond
    cases he : writeEntity ctx st u2 recs2 with
    | error e => rw [writeRecordsAux_cons_err he]
    | ok st2 =>
      rw [writeRecordsAux_cons_ok he]
      rw [ih st2 (fun p hp => hcond p (List.mem_cons_of_mem _ hp))]
      rcases writeEntity_cache_cases he with hc | ⟨lr, -, hc⟩
      · rw [hc]
      · rw [hc]
        unfold set_latest
        rw [lookupFirst_cons, if_neg (hcond (u2, recs2) (List.mem_cons_self _ _))]

/-- C6 (amended): for every batch in which some entity u's readings — after
the optional latest-cache filter, taken at the point the batch loop reaches
u — contain timestamps T1 < T2 with T2 the strict maximum, a successful
write_records leaves u's latest-cache entry (the one under its
contextualized key) holding the reading with the maximum timestamp T2 (its
encoded whole-second timestamp and its fields mapping), not the T1 reading,
provided no later batch entity's contextualized cache key coincides with
u's.  Without that proviso the claim fails: a degenerate key context whose
modname is missing or empty collapses every contextualized key to the same
okq:None:latest, and a later entity's set_latest overwrites u's entry. -/
theorem claim_C6 (ctx : Option KeyCtx) (st0 : St) (data1 data2 : List (String × List Reading))
    (u : String) (recs : List Reading) (r1 r2 : Reading)
    (h1 : r1 ∈ filterByLatest (latestOf ctx (writeRecordsAux ctx st0 data1).1 u) recs)
    (h2 : r2 ∈ filterByLatest (latestOf ctx (writeRecordsAux ctx st0 data1).1 u) recs)
    (hlt : r1.ts < r2.ts)
    (hmax : ∀ r ∈ filterByLatest (latestOf ctx (writeRecordsAux ctx st0 data1).1 u) recs,
      r ≠ r2 → r.ts < r2.ts)
    (hnover : ∀ p ∈ data2, get_cache_key ctx p.1 true ≠ get_cache_key ctx u true)
    (hok : (write_records ctx st0 (data1 ++ (u, recs) :: data2)).2 = none) :
    lookupFirst (write_records ctx st0 (data1 ++ (u, recs) :: data2)).1.cache
      (get_cache_key ctx u true) = some ⟨r2.ts / Micros, r2.fields⟩ := by
  unfold write_records at hok ⊢
  obtain ⟨-, heq⟩ := writeRecordsAux_append ctx data1 ((u, recs) :: data2) st0 hok
  rw [heq] at hok ⊢
  cases he : writeEntity ctx (writeRecordsAux ctx st0 data1).1 u recs with
  | error e =>
    rw [writeRecordsAux_cons_err he] at hok
    exact absurd hok (by simp)
  | ok st2 =>
    rw [writeRecordsAux_cons_ok he]
    rw [writeRecordsAux_lookup_untouched ctx (get_cache_key ctx u true) data2 st2 hnover]
    obtain ⟨store2, hc, hst2⟩ := writeEntity_ok_iff.mp he
    cases hlast : lastRecord
        (filterByLatest (latestOf ctx (writeRecordsAux ctx st0 data1).1 u) recs) with
    | none =>
      exfalso
      rw [lastRecord_eq_none hlast] at h2
      exact absurd h2 (List.not_mem_nil _)
    | some lr =>
      have heq2 : lr = r2 := by
        by_contra hne
        exact absurd (lastRecord_ub hlast r2 h2)
          (not_le.mpr (hmax lr (lastRecord_mem hlast) hne))
      subst heq2
      rw [hst2, hlast]
      simp [set_latest, lookupFirst]

/-- C6 counterexample: with a key context whose modname is missing, every
contextualized cache key is okq:None:latest.  Entity e's filtered readings
contain 100s < 150s with 150s the strict maximum and the batch commits
successfully (all fields dicts are empty, so no row is queued and no NOT
NULL violation occurs), yet after the call e's latest-cache entry — looked
up under e's contextualized key — holds the later entity f's reading
(ts 20s), not e's maximum reading. -/
theorem claim_C6_counterexample :
    ((write_records (some ⟨none⟩) ⟨[], []⟩
        [(("e"), [⟨100000000, []⟩, ⟨150000000, []⟩]),
         (("f"), [⟨20000000, []⟩])]).2 = none) ∧
    (lookupFirst (write_records (some ⟨none⟩) ⟨[], []⟩
        [(("e"), [⟨100000000, []⟩, ⟨150000000, []⟩]),
         (("f"), [⟨20000000, []⟩])]).1.cache
      (get_cache_key (some ⟨none⟩) ("e") true) = some ⟨20, []⟩) :=
  ⟨rfl, rfl⟩

theorem claim_C6_witness :
    lookupFirst (write_records none ⟨[], []⟩
        [(("d"), [⟨500000, [(("z"), some 9)]⟩]),
         (("e"), [⟨1000000, [(("a"), some 1)]⟩, ⟨2500000, [(("b"), some 2)]⟩]),
         (("f"), [⟨700000, [(("w"), some 3)]⟩])]).1.cache
      (get_cache_key none ("e") true) = some ⟨2, [(("b"), some 2)]⟩ :=
  claim_C6 none ⟨[], []⟩ [(("d"), [⟨500000, [(("z"), some 9)]⟩])]
    [(("f"), [⟨700000, [(("w"), some 3)]⟩])] ("e")
    [⟨1000000, [(("a"), some 1)]⟩, ⟨2500000, [(("b"), some 2)]⟩]
    ⟨1000000, [(("a"), some 1)]⟩ ⟨2500000, [(("b"), some 2)]⟩
    (by decide) (by decide) (by decide) (by decide) (by decide) rfl
